import Mathlib

/-!
Verification development for the protolock plugin subsystem
(`cmd/protolock/plugins.go`): the concurrent plugin execution and
aggregation engine (`runPlugins`, `wrapPluginErr`).

The embedding is shallow: the per-plugin goroutine body becomes a pure
function from an environment (modelling `exec.LookPath`, process
execution, and `json.Unmarshal`) to the list of messages it sends to the
collector goroutine; the collector becomes a fold over those messages;
the nondeterministic interleaving of goroutines, rendezvous channels and
the wait-group barrier is modelled separately by a small-step transition
system (`Sys`, `SysStep`).
-/

namespace ProtolockPlugins

/-- Modelled from the spec: a schema snapshot (`protolock.Protolock`),
opaque to this subsystem; the `protolock` package is outside `src/`. -/
structure Protolock where
  raw : String
deriving DecidableEq, Repr

/-- Modelled from the spec: a structured diagnostic record
(message + source locator), `protolock.Warning`; outside `src/`. -/
structure Warning where
  filepath : String
  message : String
deriving DecidableEq, Repr

/-- Modelled from the spec: the tool's diff result `protolock.Report`
(current snapshot, updated snapshot, ordered warnings); outside `src/`. -/
structure Report where
  current : Protolock
  updated : Protolock
  warnings : List Warning
deriving DecidableEq, Repr

/-- Modelled from the spec: the wire record `extend.Data` exchanged with a
plugin (outside `src/`). `pluginWarnings` is an `Option` because the Go
field is a slice that can be `nil` (absent in the decoded JSON) or present;
`runPlugins` tests it against `nil`, so the distinction is observable. -/
structure Data where
  current : Protolock
  updated : Protolock
  protolockWarnings : List Warning
  pluginWarnings : Option (List Warning)
  pluginErrorMessage : String
deriving DecidableEq, Repr

/-- Modelled from the spec: the internal record-separator token
(`protolock.ProtoSep`) used inside a Report's serialized form; the
constant lives outside `src/`, so a concrete stand-in value is used. -/
def ProtoSep : String := ":-:"

/-- Modelled from the spec: the human-display token (`protolock.FileSep`)
that replaces `ProtoSep` in user-facing text; outside `src/`. -/
def FileSep : String := "/"

/-- Fuel-driven worker for `replaceAll`; each step consumes at least one
character of the subject and one unit of fuel, so fuel equal to the
subject's length always suffices (the fuel-exhausted row is unreachable
from `replaceAll`). -/
def replaceAllAux (pat repl : List Char) : Nat → List Char → List Char
  | _, [] => []
  | 0, s => s
  | fuel + 1, c :: rest =>
    if pat.isPrefixOf (c :: rest) ∧ pat ≠ [] then
      repl ++ replaceAllAux pat repl fuel ((c :: rest).drop pat.length)
    else
      c :: replaceAllAux pat repl fuel rest

/-- Leftmost, non-overlapping replacement of `pat` by `repl`, the
semantics of Go's `strings.ReplaceAll` for a non-empty pattern (an empty
pattern is treated as matching nowhere; the source only uses the non-empty
`ProtoSep`). -/
def replaceAll (pat repl s : List Char) : List Char :=
  replaceAllAux pat repl s.length s

/-- `strings.ReplaceAll` on Lean strings. -/
def replaceAllStr (s pat repl : String) : String :=
  ⟨replaceAll pat.data repl.data s.data⟩

/-- Go's `strings.Join`. -/
def joinSep (sep : String) : List String → String
  | [] => ""
  | [a] => a
  | a :: b :: rest => a ++ sep ++ joinSep sep (b :: rest)

/-- `wrapPluginErr` from plugins.go: formats one failure record as
`name (path): cause` followed by a newline and the captured output with
every `ProtoSep` occurrence rewritten to `FileSep`. -/
def wrapPluginErr (name path errMsg : String) (output : String) : String :=
  name ++ " (" ++ path ++ "): " ++ errMsg ++ "\n" ++
    replaceAllStr output ProtoSep FileSep

/-- Modelled from the spec: stands in for the JSON wire encoding of
`extend.Data` (`encoding/json`, outside `src/`). The exact byte format is
irrelevant to every claim; only that it is a fixed total function of the
payload matters. -/
def encodeWarning (w : Warning) : String :=
  "(warning " ++ w.filepath ++ " " ++ w.message ++ ")"

/-- Modelled from the spec: encoding of a warning list (see `encodeWarning`). -/
def encodeWarningList (ws : List Warning) : String :=
  "(" ++ joinSep " " (ws.map encodeWarning) ++ ")"

/-- Modelled from the spec: encoding of a nilable warning list. -/
def encodeOptWarnings : Option (List Warning) → String
  | none => "null"
  | some ws => encodeWarningList ws

/-- Modelled from the spec: encoding of the whole exchange payload. -/
def encodeData (d : Data) : String :=
  "(data " ++ d.current.raw ++ " " ++ d.updated.raw ++ " " ++
    encodeWarningList d.protolockWarnings ++ " " ++
    encodeOptWarnings d.pluginWarnings ++ " " ++ d.pluginErrorMessage ++ ")"

/-- The outbound exchange payload built once by `runPlugins`: current and
updated snapshots, the report's warnings as `ProtolockWarnings`, an empty
(non-nil) `PluginWarnings`, and no error message. -/
def payloadData (report : Report) : Data :=
  { current := report.current
    updated := report.updated
    protolockWarnings := report.warnings
    pluginWarnings := some []
    pluginErrorMessage := "" }

/-- The serialized payload bytes, built exactly once per call
(`inputData` in plugins.go). -/
def payloadBytes (report : Report) : String :=
  encodeData (payloadData report)

/-- Modelled from Go's `strings.TrimSpace` (stdlib, outside `src/`):
drops leading and trailing whitespace. -/
def goTrim (s : String) : String :=
  ⟨((s.data.dropWhile Char.isWhitespace).reverse.dropWhile
      Char.isWhitespace).reverse⟩

/-- Worker for `goSplit`: accumulates the current field in reverse. -/
def goSplitAux (sep : Char) : List Char → List Char → List String
  | [], acc => [⟨acc.reverse⟩]
  | c :: rest, acc =>
    if c = sep then ⟨acc.reverse⟩ :: goSplitAux sep rest []
    else goSplitAux sep rest (c :: acc)

/-- Modelled from Go's `strings.Split` (stdlib, outside `src/`) for a
one-character separator; the source splits the plugin list on `","`.
Splitting the empty string yields `[""]`, like Go. -/
def goSplit (sep : Char) (s : String) : List String :=
  goSplitAux sep s.data []

/-- The environment a plugin invocation interacts with:
`lookPath` models `exec.LookPath` (name to executable path or error),
`run` models constructing an `exec.Cmd` with a path, argument list and
stdin and calling `CombinedOutput` (returning either the combined output
or an error message together with the raw output captured so far), and
`decode` models `json.Unmarshal` of plugin output into `extend.Data`. -/
structure PluginEnv where
  lookPath : String → Except String String
  run : String → List String → String → Except (String × String) String
  decode : String → Option Data

/-- A message sent to the collector goroutine: either a batch of warnings
(`pluginWarningsChan`) or one formatted failure record (`pluginErrsChan`). -/
inductive Msg where
  | warnings (ws : List Warning)
  | failure (record : String)
deriving DecidableEq, Repr

/-- A record of one spawned plugin process: the `exec.Cmd` in plugins.go
is built from `Path` and `Stdin` only, so `args` records the (absent)
argument list and `stdin` the bytes supplied on standard input. -/
structure Invocation where
  path : String
  args : List String
  stdin : String
deriving DecidableEq, Repr

/-- The body of one plugin goroutine in `runPlugins`: trim the name,
resolve it (a resolution failure is only logged: no message, no process);
spawn the executable from the resolved path alone with the shared payload
on stdin; on process failure send one wrapped failure record; otherwise
decode the output (a decode failure is only logged: no message); on
decode success send the warnings batch when the `PluginWarnings` field is
non-nil, then a wrapped failure record when `PluginErrorMessage` is
non-empty. Returns the messages sent (in send order) and the processes
spawned. -/
def pluginRun (env : PluginEnv) (stdin : String) (rawName : String) :
    List Msg × List Invocation :=
  match env.lookPath (goTrim rawName) with
  | Except.error _ => ([], [])
  | Except.ok path =>
    match env.run path [] stdin with
    | Except.error (errMsg, output) =>
      ([Msg.failure (wrapPluginErr (goTrim rawName) path errMsg output)],
       [{ path := path, args := [], stdin := stdin }])
    | Except.ok output =>
      match env.decode output with
      | none => ([], [{ path := path, args := [], stdin := stdin }])
      | some d =>
        ((match d.pluginWarnings with
          | some ws => [Msg.warnings ws]
          | none => []) ++
         (if d.pluginErrorMessage ≠ "" then
            [Msg.failure (wrapPluginErr (goTrim rawName) path d.pluginErrorMessage output)]
          else []),
         [{ path := path, args := [], stdin := stdin }])

/-- The messages one plugin goroutine sends to the collector. -/
def pluginBody (env : PluginEnv) (stdin : String) (rawName : String) :
    List Msg :=
  (pluginRun env stdin rawName).1

/-- The processes one plugin goroutine spawns. -/
def pluginInvocations (env : PluginEnv) (stdin : String) (rawName : String) :
    List Invocation :=
  (pluginRun env stdin rawName).2

/-- One collector step: a warnings batch is appended, warning by warning,
to the report's warnings; a failure record is appended to the accumulated
plugin errors (`wrapPluginErr` never yields Go's `nil`, so the collector's
nil-guard never skips a record). -/
def applyMsg : Report × List String → Msg → Report × List String
  | (r, errs), Msg.warnings ws => ({ r with warnings := r.warnings ++ ws }, errs)
  | (r, errs), Msg.failure e => (r, errs ++ [e])

/-- All messages of one call, per goroutine in dispatch order
(`strings.Split(pluginList, ",")`); the interleaving nondeterminism is
treated by the `Sys` transition system below, whose final accumulator
content is a permutation of this list. -/
def runMsgs (env : PluginEnv) (pluginList : String) (report : Report) :
    List Msg :=
  ((goSplit ',' pluginList).map
    (fun name => pluginBody env (payloadBytes report) name)).flatten

/-- All processes spawned by one call. -/
def runInvocations (env : PluginEnv) (pluginList : String) (report : Report) :
    List Invocation :=
  ((goSplit ',' pluginList).map
    (fun name => pluginInvocations env (payloadBytes report) name)).flatten

/-- The fixed first line of the combined error
(`[protolock:plugin] accumulated plugin errors:` plus the newline of the
raw-string format used by `fmt.Errorf`). -/
def errHeader : String := "[protolock:plugin] accumulated plugin errors:\n"

/-- `runPlugins` from plugins.go: build the payload once, run every
plugin, let the collector fold all messages into the shared report and
the error accumulator; if any plugin error was accumulated return no
report and the combined error, otherwise return the (same, extended)
report. -/
def runPlugins (env : PluginEnv) (pluginList : String) (report : Report) :
    Except String Report :=
  let res := (runMsgs env pluginList report).foldl applyMsg (report, [])
  if res.2 = [] then Except.ok res.1
  else Except.error (errHeader ++ joinSep "\n" res.2)

/-- `pat` occurs as a contiguous substring of `s`. -/
def strContains (s pat : String) : Prop :=
  pat.data <:+: s.data

instance (s pat : String) : Decidable (strContains s pat) := by
  unfold strContains
  infer_instance

/-- The warnings carried by a message stream, batch by batch. -/
def msgsWarnings : List Msg → List Warning
  | [] => []
  | Msg.warnings ws :: rest => ws ++ msgsWarnings rest
  | Msg.failure _ :: rest => msgsWarnings rest

/-- The failure records carried by a message stream. -/
def msgsFailures : List Msg → List String
  | [] => []
  | Msg.warnings _ :: rest => msgsFailures rest
  | Msg.failure e :: rest => e :: msgsFailures rest

/-- The failure-record data (trimmed name, resolved path, cause, raw
output) that one plugin goroutine wraps and forwards: one record on
process failure, one on a non-empty plugin-reported error message,
nothing on resolution failure, decode failure or clean success. -/
def pluginFailData (env : PluginEnv) (stdin : String) (rawName : String) :
    List (String × String × String × String) :=
  match env.lookPath (goTrim rawName) with
  | Except.error _ => []
  | Except.ok path =>
    match env.run path [] stdin with
    | Except.error (errMsg, output) => [((goTrim rawName), path, errMsg, output)]
    | Except.ok output =>
      match env.decode output with
      | none => []
      | some d =>
        if d.pluginErrorMessage ≠ "" then
          [((goTrim rawName), path, d.pluginErrorMessage, output)]
        else []

/-- `wrapPluginErr` applied to one failure-record quadruple. -/
def wrapQuad (q : String × String × String × String) : String :=
  wrapPluginErr q.1 q.2.1 q.2.2.1 q.2.2.2

/-- All failure-record data of one call, in dispatch order. -/
def runFailData (env : PluginEnv) (pluginList : String) (report : Report) :
    List (String × String × String × String) :=
  ((goSplit ',' pluginList).map
    (fun name => pluginFailData env (payloadBytes report) name)).flatten

/-- A built-in warning already present in the report before plugins run. -/
def w1 : Warning := { filepath := "a.proto", message := "w1-original" }

/-- A warning contributed by a plugin. -/
def w2 : Warning := { filepath := "b.proto", message := "w2-plugin-warning" }

/-- Another plugin-contributed warning. -/
def w3 : Warning := { filepath := "c.proto", message := "w3-plugin-warning" }

/-- A concrete input report carrying one built-in warning. -/
def exReport : Report :=
  { current := { raw := "cur" }, updated := { raw := "upd" }, warnings := [w1] }

/-- The spec example environment: `pluginA` resolves, exits 0 and its
output decodes to a payload carrying warning `w2`; `pluginB` resolves and
exits 1 printing `boom`; everything else is unresolvable. -/
def exEnv : PluginEnv :=
  { lookPath := fun n =>
      if n = "pluginA" then Except.ok "/bin/pluginA"
      else if n = "pluginB" then Except.ok "/bin/pluginB"
      else Except.error "executable file not found in PATH"
    run := fun path _ _ =>
      if path = "/bin/pluginA" then Except.ok "outA"
      else Except.error ("exit status 1", "boom")
    decode := fun out =>
      if out = "outA" then
        some { current := { raw := "cur" }, updated := { raw := "upd" },
               protolockWarnings := [w1], pluginWarnings := some [w2],
               pluginErrorMessage := "" }
      else none }

/-- The combined error text of the spec example. -/
def exCombinedErr : String :=
  "[protolock:plugin] accumulated plugin errors:\npluginB (/bin/pluginB): exit status 1\nboom"

/-- An environment in which no plugin name resolves. -/
def envNone : PluginEnv :=
  { lookPath := fun _ => Except.error "executable file not found in PATH"
    run := fun _ _ _ => Except.ok ""
    decode := fun _ => none }

/-- An environment with two succeeding plugins, `alpha` contributing
`w2` and `beta` contributing `w3`. -/
def envTwo : PluginEnv :=
  { lookPath := fun n =>
      if n = "alpha" then Except.ok "/bin/alpha"
      else if n = "beta" then Except.ok "/bin/beta"
      else Except.error "executable file not found in PATH"
    run := fun path _ _ =>
      if path = "/bin/alpha" then Except.ok "outAlpha" else Except.ok "outBeta"
    decode := fun out =>
      if out = "outAlpha" then
        some { current := { raw := "cur" }, updated := { raw := "upd" },
               protolockWarnings := [w1], pluginWarnings := some [w2],
               pluginErrorMessage := "" }
      else if out = "outBeta" then
        some { current := { raw := "cur" }, updated := { raw := "upd" },
               protolockWarnings := [w1], pluginWarnings := some [w3],
               pluginErrorMessage := "" }
      else none }

/-- A decoded payload whose `PluginWarnings` field is present but empty
(Go: a non-nil empty slice) and which reports no error. -/
def dEmptyC4 : Data :=
  { current := { raw := "cur" }, updated := { raw := "upd" },
    protolockWarnings := [], pluginWarnings := some [],
    pluginErrorMessage := "" }

/-- Environment for the empty-but-present warnings batch. -/
def cEnvC4 : PluginEnv :=
  { lookPath := fun n =>
      if n = "pluginD" then Except.ok "/bin/pluginD"
      else Except.error "executable file not found in PATH"
    run := fun _ _ _ => Except.ok "outC4"
    decode := fun out => if out = "outC4" then some dEmptyC4 else none }

/-- A decoded payload carrying both a warnings batch and an error message. -/
def dBoth : Data :=
  { current := { raw := "cur" }, updated := { raw := "upd" },
    protolockWarnings := [w1], pluginWarnings := some [w2],
    pluginErrorMessage := "plugin says no" }

/-- Environment whose single plugin returns `dBoth`. -/
def envBoth : PluginEnv :=
  { lookPath := fun n =>
      if n = "pluginC" then Except.ok "/bin/pluginC"
      else Except.error "executable file not found in PATH"
    run := fun _ _ _ => Except.ok "outC"
    decode := fun out => if out = "outC" then some dBoth else none }

/-- Environment whose single plugin fails printing output that contains
the internal record-separator token. -/
def envSep : PluginEnv :=
  { lookPath := fun n =>
      if n = "sepp" then Except.ok "/bin/sepp"
      else Except.error "executable file not found in PATH"
    run := fun _ _ _ => Except.error ("exit status 2", "x:-:y")
    decode := fun _ => none }

/-- Environment whose single plugin succeeds contributing one warning
batch; used to drive the interleaving model on a concrete schedule. -/
def envW : PluginEnv :=
  { lookPath := fun _ => Except.ok "/bin/w"
    run := fun _ _ _ => Except.ok "outW"
    decode := fun _ =>
      some { current := { raw := "c" }, updated := { raw := "u" },
             protolockWarnings := [], pluginWarnings := some [w2],
             pluginErrorMessage := "" } }

instance {ε α : Type} [DecidableEq ε] [DecidableEq α] : DecidableEq (Except ε α)
  | Except.ok a, Except.ok b =>
    if h : a = b then Decidable.isTrue (by rw [h])
    else Decidable.isFalse (by intro hc; cases hc; exact h rfl)
  | Except.error a, Except.error b =>
    if h : a = b then Decidable.isTrue (by rw [h])
    else Decidable.isFalse (by intro hc; cases hc; exact h rfl)
  | Except.ok _, Except.error _ => Decidable.isFalse (by intro hc; cases hc)
  | Except.error _, Except.ok _ => Decidable.isFalse (by intro hc; cases hc)

/-!
Interleaving model of the concurrent part of `runPlugins`: one task per
plugin goroutine, holding the FIFO list of messages it still has to send
and a flag recording whether its deferred `wg.Done` has run; the
collector goroutine, which holds at most one received-but-not-yet-applied
message (`inbox`) because an unbuffered channel send returns at the
rendezvous while the `select` body then appends before the next receive;
the list of messages applied so far (`applied`), which determines the
accumulators via `applyMsg`; and the flag `finished`, set when the main
goroutine has passed `wg.Wait()` and the `pluginsDone` rendezvous and
reads the accumulators.
-/

/-- One plugin goroutine: unsent messages (in send order) and whether its
`wg.Done` has run. -/
structure Task where
  pending : List Msg
  done : Bool
deriving DecidableEq, Repr

/-- Global state of the concurrent execution. -/
structure Sys where
  tasks : List Task
  inbox : Option Msg
  applied : List Msg
  finished : Bool
deriving DecidableEq, Repr

/-- The interleaving steps. `send`: an unbuffered-channel rendezvous —
the sender's head message moves to the collector, possible only while the
collector sits at its `select` (empty inbox). `record`: the collector
applies the received message and returns to `select`. `complete`: a
task's deferred `wg.Done` runs, possible only after all its sends have
returned. `finalize`: `wg.Wait()` returns (every `Done` has run) and the
`pluginsDone` rendezvous fires, possible only with the collector at its
`select`; the main goroutine then reads the accumulators. -/
inductive SysStep : Sys → Sys → Prop where
  | send {s : Sys} (i : Nat) (m : Msg) (rest : List Msg) (t : Task)
      (ht : s.tasks[i]? = some t) (hp : t.pending = m :: rest)
      (hidle : s.inbox = none) (hfin : s.finished = false) :
      SysStep s { s with tasks := s.tasks.set i { t with pending := rest },
                         inbox := some m }
  | record {s : Sys} (m : Msg) (hm : s.inbox = some m)
      (hfin : s.finished = false) :
      SysStep s { s with inbox := none, applied := s.applied ++ [m] }
  | complete {s : Sys} (i : Nat) (t : Task) (ht : s.tasks[i]? = some t)
      (hp : t.pending = []) (hd : t.done = false) (hfin : s.finished = false) :
      SysStep s { s with tasks := s.tasks.set i { t with done := true } }
  | finalize {s : Sys} (hall : ∀ t ∈ s.tasks, t.done = true)
      (hidle : s.inbox = none) (hfin : s.finished = false) :
      SysStep s { s with finished := true }

/-- Initial state: one task per plugin goroutine with its full message
list, collector at `select`, nothing applied. -/
def Sys.init (msgss : List (List Msg)) : Sys :=
  { tasks := msgss.map (fun ms => { pending := ms, done := false })
    inbox := none
    applied := []
    finished := false }

/-- Reachability from the initial state. -/
def SysReach (msgss : List (List Msg)) (s : Sys) : Prop :=
  Relation.ReflTransGen SysStep (Sys.init msgss) s

/-- Messages not yet delivered to the collector. -/
def Sys.outstanding (s : Sys) : List Msg :=
  (s.tasks.map Task.pending).flatten

/-- The inductive invariant: a completed task has sent everything; the
multiset of applied, in-flight and unsent messages is constant; once
finished, everything has been applied. -/
def SysInv (msgss : List (List Msg)) (s : Sys) : Prop :=
  (∀ t ∈ s.tasks, t.done = true → t.pending = []) ∧
  (s.applied ++ s.inbox.toList ++ s.outstanding).Perm msgss.flatten ∧
  (s.finished = true → s.applied.Perm msgss.flatten)

theorem msgsWarnings_append (a b : List Msg) :
    msgsWarnings (a ++ b) = msgsWarnings a ++ msgsWarnings b := by
  induction a with
  | nil => simp [msgsWarnings]
  | cons m rest ih => cases m <;> simp [msgsWarnings, ih]

theorem msgsFailures_append (a b : List Msg) :
    msgsFailures (a ++ b) = msgsFailures a ++ msgsFailures b := by
  induction a with
  | nil => simp [msgsFailures]
  | cons m rest ih => cases m <;> simp [msgsFailures, ih]

/-- The collector fold, fully characterized: it appends exactly the
streamed warnings to the report and the streamed failure records to the
error accumulator, touching nothing else. -/
theorem collect_spec (msgs : List Msg) (r : Report) (errs : List String) :
    msgs.foldl applyMsg (r, errs) =
      ({ r with warnings := r.warnings ++ msgsWarnings msgs },
       errs ++ msgsFailures msgs) := by
  induction msgs generalizing r errs with
  | nil => simp [msgsWarnings, msgsFailures]
  | cons m rest ih =>
    cases m with
    | warnings ws =>
      simp only [List.foldl_cons, applyMsg, msgsWarnings, msgsFailures]
      rw [ih]
      simp [List.append_assoc]
    | failure e =>
      simp only [List.foldl_cons, applyMsg, msgsWarnings, msgsFailures]
      rw [ih]
      simp

theorem msgsFailures_pluginBody (env : PluginEnv) (stdin rawName : String) :
    msgsFailures (pluginBody env stdin rawName) =
      (pluginFailData env stdin rawName).map wrapQuad := by
  unfold pluginBody pluginRun pluginFailData
  cases hl : env.lookPath (goTrim rawName) with
  | error e => simp [hl, msgsFailures]
  | ok path =>
    cases hr : env.run path [] stdin with
    | error p =>
      obtain ⟨errMsg, output⟩ := p
      simp [hl, hr, msgsFailures, wrapQuad]
    | ok output =>
      cases hd : env.decode output with
      | none => simp [hl, hr, hd, msgsFailures]
      | some d =>
        by_cases he : d.pluginErrorMessage = ""
        · simp only [hl, hr, hd, he, msgsFailures_append]
          cases d.pluginWarnings <;> simp [msgsFailures]
        · simp only [hl, hr, hd, he, msgsFailures_append]
          cases d.pluginWarnings <;>
            simp [msgsFailures, msgsFailures_append, wrapQuad, he]

theorem msgsFailures_runMsgs (env : PluginEnv) (pluginList : String)
    (report : Report) :
    msgsFailures (runMsgs env pluginList report) =
      (runFailData env pluginList report).map wrapQuad := by
  unfold runMsgs runFailData
  induction goSplit ',' pluginList with
  | nil => simp [msgsFailures]
  | cons n rest ih =>
    simp only [List.map_cons, List.flatten_cons, msgsFailures_append, ih,
      List.map_append]
    rw [msgsFailures_pluginBody]

/-- The outcome of `runPlugins`, characterized by the message stream: a
combined error exactly when some failure record was accumulated, the
extended report otherwise. -/
theorem runPlugins_eq (env : PluginEnv) (pluginList : String) (r : Report) :
    runPlugins env pluginList r =
      if msgsFailures (runMsgs env pluginList r) = [] then
        Except.ok
          { r with warnings := r.warnings ++ msgsWarnings (runMsgs env pluginList r) }
      else
        Except.error
          (errHeader ++ joinSep "\n" (msgsFailures (runMsgs env pluginList r))) := by
  unfold runPlugins
  rw [collect_spec]
  simp

theorem string_data_append (a b : String) : (a ++ b).data = a.data ++ b.data :=
  rfl

theorem infix_append_left {α : Type} {x y : List α} (z : List α)
    (h : x <:+: y) : x <:+: z ++ y := by
  obtain ⟨s, t, hst⟩ := h
  exact ⟨z ++ s, t, by rw [← hst]; simp⟩

theorem infix_append_right {α : Type} {x y : List α} (z : List α)
    (h : x <:+: y) : x <:+: y ++ z := by
  obtain ⟨s, t, hst⟩ := h
  exact ⟨s, t ++ z, by rw [← hst]; simp⟩

/-- Every joined element is a contiguous substring of the join. -/
theorem mem_joinSep_substr (sep : String) (l : List String) (a : String)
    (ha : a ∈ l) : a.data <:+: (joinSep sep l).data := by
  induction l with
  | nil => cases ha
  | cons b rest ih =>
    cases rest with
    | nil =>
      rw [List.mem_singleton] at ha
      subst ha
      exact List.infix_refl _
    | cons c rest2 =>
      rcases List.mem_cons.mp ha with h | h
      · subst h
        show a.data <:+: (a ++ sep ++ joinSep sep (c :: rest2)).data
        rw [string_data_append, string_data_append]
        exact infix_append_right _ (infix_append_right _ (List.infix_refl _))
      · have := ih h
        show a.data <:+: (b ++ sep ++ joinSep sep (c :: rest2)).data
        rw [string_data_append, string_data_append]
        rw [List.append_assoc]
        exact infix_append_left _ (infix_append_left _ this)

theorem failure_mem_msgsFailures {msgs : List Msg} {e : String}
    (h : Msg.failure e ∈ msgs) : e ∈ msgsFailures msgs := by
  induction msgs with
  | nil => cases h
  | cons m rest ih =>
    rcases List.mem_cons.mp h with h1 | h1
    · rw [← h1]
      simp [msgsFailures]
    · cases m <;> simp [msgsFailures, ih h1]

theorem mem_runMsgs {env : PluginEnv} {pluginList : String} {r : Report}
    {rawName : String} {m : Msg} (hn : rawName ∈ goSplit ',' pluginList)
    (hm : m ∈ pluginBody env (payloadBytes r) rawName) :
    m ∈ runMsgs env pluginList r := by
  unfold runMsgs
  rw [List.mem_flatten]
  exact ⟨pluginBody env (payloadBytes r) rawName,
    List.mem_map_of_mem _ hn, hm⟩

theorem replaceAllAux_nil (pat repl : List Char) (fuel : Nat) :
    replaceAllAux pat repl fuel [] = [] := by
  cases fuel <;> rfl

theorem replaceAllAux_cons_pos (pat repl : List Char) (fuel : Nat) (c : Char)
    (rest : List Char) (h : pat.isPrefixOf (c :: rest) ∧ pat ≠ []) :
    replaceAllAux pat repl (fuel + 1) (c :: rest) =
      repl ++ replaceAllAux pat repl fuel ((c :: rest).drop pat.length) := by
  rw [replaceAllAux]
  simp [h.1, h.2]

theorem replaceAllAux_cons_neg (pat repl : List Char) (fuel : Nat) (c : Char)
    (rest : List Char) (h : ¬(pat.isPrefixOf (c :: rest) ∧ pat ≠ [])) :
    replaceAllAux pat repl (fuel + 1) (c :: rest) =
      c :: replaceAllAux pat repl fuel rest := by
  rw [replaceAllAux]
  simp only [if_neg h]

/-- An occurrence of a non-empty pattern inside `A ++ X` lies inside `X`
whenever no character of `A` belongs to the pattern. -/
theorem infix_skip_disjoint {pat : List Char} (hpat : pat ≠ []) :
    ∀ (A X : List Char), (∀ c ∈ A, c ∉ pat) → pat <:+: A ++ X → pat <:+: X := by
  intro A
  induction A with
  | nil => intro X _ h; simpa using h
  | cons a A2 ih =>
    intro X hdis h
    rw [List.cons_append, List.infix_cons_iff] at h
    rcases h with h | h
    · exfalso
      cases pat with
      | nil => exact hpat rfl
      | cons p0 pt =>
        rw [List.cons_prefix_cons] at h
        exact hdis a (by simp) (by rw [← h.1]; simp)
    · exact ih X (fun c hc => hdis c (by simp [hc])) h

/-- No non-empty suffix `q` of the pattern becomes a prefix of the
rewritten string unless it already was a prefix of the input, provided
the replacement shares no character with the pattern. -/
theorem prefix_block (pat repl : List Char)
    (hrepl : repl ≠ []) (hdisj : ∀ c ∈ repl, c ∉ pat) :
    ∀ (fuel : Nat) (s q : List Char), q <:+ pat → ¬ q <+: s →
      ¬ q <+: replaceAllAux pat repl fuel s := by
  intro fuel
  induction fuel with
  | zero =>
    intro s q hsuf hnp hp
    cases s with
    | nil =>
      rw [replaceAllAux_nil] at hp
      have hq : q = [] := List.prefix_nil.mp hp
      subst hq
      exact hnp List.nil_prefix
    | cons c rest => exact hnp hp
  | succ n ih =>
    intro s q hsuf hnp hp
    cases s with
    | nil =>
      rw [replaceAllAux_nil] at hp
      have hq : q = [] := List.prefix_nil.mp hp
      subst hq
      exact hnp List.nil_prefix
    | cons c rest =>
      by_cases hm : pat.isPrefixOf (c :: rest) ∧ pat ≠ []
      · rw [replaceAllAux_cons_pos _ _ _ _ _ hm] at hp
        cases q with
        | nil => exact hnp List.nil_prefix
        | cons q0 qt =>
          cases repl with
          | nil => exact hrepl rfl
          | cons r0 rt =>
            rw [List.cons_append, List.cons_prefix_cons] at hp
            have hq0 : q0 ∈ pat := by
              obtain ⟨s0, hs0⟩ := hsuf
              rw [← hs0]
              simp
            exact hdisj r0 (by simp) (hp.1 ▸ hq0)
      · rw [replaceAllAux_cons_neg _ _ _ _ _ hm] at hp
        cases q with
        | nil => exact hnp List.nil_prefix
        | cons q0 qt =>
          rw [List.cons_prefix_cons] at hp
          have hqt_suf : qt <:+ pat := by
            obtain ⟨s0, hs0⟩ := hsuf
            exact ⟨s0 ++ [q0], by rw [← hs0]; simp⟩
          have hqtnp : ¬ qt <+: rest := by
            intro hq
            exact hnp (by rw [List.cons_prefix_cons]; exact ⟨hp.1, hq⟩)
          exact ih rest qt hqt_suf hqtnp hp.2

/-- The pattern has no occurrence left in the rewritten string, provided
the replacement is non-empty and shares no character with the pattern. -/
theorem pat_not_infix_replaceAll (pat repl : List Char) (hpat : pat ≠ [])
    (hrepl : repl ≠ []) (hdisj : ∀ c ∈ repl, c ∉ pat) :
    ∀ (fuel : Nat) (s : List Char), s.length ≤ fuel →
      ¬ pat <:+: replaceAllAux pat repl fuel s := by
  intro fuel
  induction fuel with
  | zero =>
    intro s hlen h
    have hs : s = [] := List.eq_nil_of_length_eq_zero (Nat.le_zero.mp hlen)
    subst hs
    rw [replaceAllAux_nil] at h
    exact hpat (List.eq_nil_of_infix_nil h)
  | succ n ih =>
    intro s hlen h
    cases s with
    | nil =>
      rw [replaceAllAux_nil] at h
      exact hpat (List.eq_nil_of_infix_nil h)
    | cons c rest =>
      by_cases hm : pat.isPrefixOf (c :: rest) ∧ pat ≠ []
      · rw [replaceAllAux_cons_pos _ _ _ _ _ hm] at h
        have h2 := infix_skip_disjoint hpat repl _ hdisj h
        have hlen2 : ((c :: rest).drop pat.length).length ≤ n := by
          have h1 : 1 ≤ pat.length := List.length_pos.mpr hpat
          simp only [List.length_drop, List.length_cons]
          simp only [List.length_cons] at hlen
          omega
        exact ih _ hlen2 h2
      · rw [replaceAllAux_cons_neg _ _ _ _ _ hm] at h
        rw [List.infix_cons_iff] at h
        rcases h with h | h
        · have hnp : ¬ pat <+: (c :: rest) := by
            intro hpre
            have hb : pat.isPrefixOf (c :: rest) = true :=
              List.isPrefixOf_iff_prefix.mpr hpre
            exact hm ⟨hb, hpat⟩
          apply prefix_block pat repl hrepl hdisj (n + 1) (c :: rest) pat
            (List.suffix_refl _) hnp
          rw [replaceAllAux_cons_neg _ _ _ _ _ hm]
          exact h
        · have hlen2 : rest.length ≤ n := by
            simp only [List.length_cons] at hlen
            omega
          exact ih rest hlen2 h

/-- The raw internal record-separator token never survives the rewriting
performed by `wrapPluginErr` on captured plugin output. -/
theorem protoSep_not_in_rewritten (output : String) :
    ¬ strContains (replaceAllStr output ProtoSep FileSep) ProtoSep := by
  intro h
  exact pat_not_infix_replaceAll ProtoSep.data FileSep.data (by decide)
    (by decide) (by decide) output.data.length output.data le_rfl h

theorem map_set_list {α β : Type} (f : α → β) (l : List α) (i : Nat) (a : α) :
    (l.set i a).map f = (l.map f).set i (f a) := by
  induction l generalizing i with
  | nil => simp
  | cons b rest ih =>
    cases i with
    | zero => simp
    | succ j => simp [ih]

theorem set_self_of_get {α : Type} (l : List α) (i : Nat) (a : α)
    (h : l[i]? = some a) : l.set i a = l := by
  induction l generalizing i with
  | nil => simp
  | cons b rest ih =>
    cases i with
    | zero => simp at h; simp [h]
    | succ j => simp at h ⊢; exact ih j h

theorem flatten_set_perm {α : Type} (l : List (List α)) (i : Nat) (a : α)
    (rest : List α) (h : l[i]? = some (a :: rest)) :
    l.flatten.Perm (a :: (l.set i rest).flatten) := by
  induction l generalizing i with
  | nil => simp at h
  | cons hd tl ih =>
    cases i with
    | zero =>
      rw [List.getElem?_cons_zero, Option.some.injEq] at h
      subst h
      simp
    | succ j =>
      rw [List.getElem?_cons_succ] at h
      have hperm := ih j h
      simp only [List.set_cons_succ, List.flatten_cons]
      have h1 : (hd ++ tl.flatten).Perm (hd ++ (a :: (tl.set j rest).flatten)) :=
        List.Perm.append_left hd hperm
      exact h1.trans List.perm_middle

theorem sysInv_init (msgss : List (List Msg)) : SysInv msgss (Sys.init msgss) := by
  refine ⟨?_, ?_, ?_⟩
  · intro t ht hd
    simp only [Sys.init, List.mem_map] at ht
    obtain ⟨ms, _, rfl⟩ := ht
    simp at hd
  · have hcomp : (Task.pending ∘ fun ms => ({ pending := ms, done := false } : Task)) =
        id := rfl
    simp [Sys.init, Sys.outstanding, List.map_map, hcomp]
  · intro h
    simp [Sys.init] at h

theorem sysInv_step {msgss : List (List Msg)} {s s' : Sys}
    (hinv : SysInv msgss s) (hstep : SysStep s s') : SysInv msgss s' := by
  obtain ⟨hdone, hperm, hfin⟩ := hinv
  cases hstep with
  | send i m rest t ht hp hidle hfinned =>
    refine ⟨?_, ?_, ?_⟩
    · intro t' ht' hd'
      rcases List.mem_or_eq_of_mem_set ht' with h | h
      · exact hdone t' h hd'
      · subst h
        simp only at hd'
        have h2 := hdone t (List.getElem?_mem ht) hd'
        rw [hp] at h2
        cases h2
    · have houts : s.outstanding.Perm
          (m :: ((s.tasks.set i { t with pending := rest }).map Task.pending).flatten) := by
        unfold Sys.outstanding
        rw [map_set_list]
        apply flatten_set_perm
        rw [List.getElem?_map, ht]
        simp [hp]
      rw [hidle] at hperm
      simp only [Option.toList, List.append_nil] at hperm
      refine List.Perm.trans ?_ hperm
      show (s.applied ++ [m] ++
        ((s.tasks.set i { t with pending := rest }).map Task.pending).flatten).Perm
        (s.applied ++ s.outstanding)
      rw [List.append_assoc, List.singleton_append]
      exact List.Perm.append_left s.applied houts.symm
    · intro h
      have h2 : s.finished = true := h
      rw [hfinned] at h2
      cases h2
  | record m hm hfinned =>
    refine ⟨hdone, ?_, ?_⟩
    · rw [hm] at hperm
      simp only [Option.toList] at hperm
      refine List.Perm.trans ?_ hperm
      show ((s.applied ++ [m]) ++ [] ++ s.outstanding).Perm
        (s.applied ++ [m] ++ s.outstanding)
      simp
    · intro h
      have h2 : s.finished = true := h
      rw [hfinned] at h2
      cases h2
  | complete i t ht hp hd hfinned =>
    refine ⟨?_, ?_, ?_⟩
    · intro t' ht' hd'
      rcases List.mem_or_eq_of_mem_set ht' with h | h
      · exact hdone t' h hd'
      · subst h
        simpa using hp
    · have heq : (s.tasks.set i { t with done := true }).map Task.pending =
          s.tasks.map Task.pending := by
        rw [map_set_list]
        apply set_self_of_get
        rw [List.getElem?_map, ht]
        simp
      show (s.applied ++ s.inbox.toList ++
        ((s.tasks.set i { t with done := true }).map Task.pending).flatten).Perm
        msgss.flatten
      rw [heq]
      exact hperm
    · intro h
      have h2 : s.finished = true := h
      rw [hfinned] at h2
      cases h2
  | finalize hall hidle hfinned =>
    refine ⟨hdone, hperm, ?_⟩
    intro _
    have houts : s.outstanding = [] := by
      apply List.flatten_eq_nil_iff.mpr
      intro ms hms
      rw [List.mem_map] at hms
      obtain ⟨t, htmem, rfl⟩ := hms
      exact hdone t htmem (hall t htmem)
    rw [hidle, houts] at hperm
    simpa using hperm

theorem sysInv_reach {msgss : List (List Msg)} {s : Sys}
    (h : SysReach msgss s) : SysInv msgss s := by
  induction h with
  | refl => exact sysInv_init msgss
  | tail _ hstep ih => exact sysInv_step ih hstep

theorem pluginRun_lookup_error (env : PluginEnv) (stdin rawName e : String)
    (h : env.lookPath (goTrim rawName) = Except.error e) :
    pluginRun env stdin rawName = ([], []) := by
  unfold pluginRun
  simp only [h]

theorem pluginRun_proc_error (env : PluginEnv)
    (stdin rawName path errMsg output : String)
    (h1 : env.lookPath (goTrim rawName) = Except.ok path)
    (h2 : env.run path [] stdin = Except.error (errMsg, output)) :
    pluginRun env stdin rawName =
      ([Msg.failure (wrapPluginErr (goTrim rawName) path errMsg output)],
       [{ path := path, args := [], stdin := stdin }]) := by
  unfold pluginRun
  simp only [h1, h2]

theorem pluginRun_decode_none (env : PluginEnv)
    (stdin rawName path output : String)
    (h1 : env.lookPath (goTrim rawName) = Except.ok path)
    (h2 : env.run path [] stdin = Except.ok output)
    (h3 : env.decode output = none) :
    pluginRun env stdin rawName =
      ([], [{ path := path, args := [], stdin := stdin }]) := by
  unfold pluginRun
  simp only [h1, h2, h3]

theorem pluginRun_decode_some (env : PluginEnv)
    (stdin rawName path output : String) (d : Data)
    (h1 : env.lookPath (goTrim rawName) = Except.ok path)
    (h2 : env.run path [] stdin = Except.ok output)
    (h3 : env.decode output = some d) :
    pluginRun env stdin rawName =
      ((match d.pluginWarnings with
        | some ws => [Msg.warnings ws]
        | none => []) ++
       (if d.pluginErrorMessage ≠ "" then
          [Msg.failure (wrapPluginErr (goTrim rawName) path
            d.pluginErrorMessage output)]
        else []),
       [{ path := path, args := [], stdin := stdin }]) := by
  unfold pluginRun
  simp only [h1, h2, h3]

theorem mem_pluginInvocations {env : PluginEnv} {stdin rawName : String}
    {inv : Invocation} (h : inv ∈ pluginInvocations env stdin rawName) :
    inv.args = [] ∧ inv.stdin = stdin := by
  unfold pluginInvocations pluginRun at h
  cases hl : env.lookPath (goTrim rawName) with
  | error e =>
    simp only [hl] at h
    simp at h
  | ok path =>
    simp only [hl] at h
    cases hr : env.run path [] stdin with
    | error p =>
      obtain ⟨errMsg, output⟩ := p
      simp only [hr] at h
      simp at h
      rw [h]
      exact ⟨rfl, rfl⟩
    | ok output =>
      simp only [hr] at h
      cases hd : env.decode output with
      | none =>
        simp only [hd] at h
        simp at h
        rw [h]
        exact ⟨rfl, rfl⟩
      | some d =>
        simp only [hd] at h
        simp at h
        rw [h]
        exact ⟨rfl, rfl⟩

theorem mem_runInvocations {env : PluginEnv} {pluginList : String} {r : Report}
    {inv : Invocation} (h : inv ∈ runInvocations env pluginList r) :
    inv.args = [] ∧ inv.stdin = payloadBytes r := by
  unfold runInvocations at h
  rw [List.mem_flatten] at h
  obtain ⟨l, hl, hinv⟩ := h
  rw [List.mem_map] at hl
  obtain ⟨n, _, rfl⟩ := hl
  exact mem_pluginInvocations hinv

theorem wrap_contains (name path errMsg output : String) :
    strContains (wrapPluginErr name path errMsg output) name ∧
    strContains (wrapPluginErr name path errMsg output) path := by
  constructor
  · refine ⟨[], (" (" ++ path ++ "): " ++ errMsg ++ "\n" ++
      replaceAllStr output ProtoSep FileSep).data, ?_⟩
    simp [wrapPluginErr, string_data_append]
  · refine ⟨(name ++ " (").data, ("): " ++ errMsg ++ "\n" ++
      replaceAllStr output ProtoSep FileSep).data, ?_⟩
    simp [wrapPluginErr, string_data_append]

set_option maxRecDepth 8192

/-- C1: for every call in which at least one failure record
(process-execution failure or plugin-reported error) is accumulated,
`runPlugins` returns no report and a single combined error built from
exactly the accumulated failure records, so no warning contributed by a
succeeding plugin in that same call is observable in the call's outcome;
the spec example (`pluginA` exits 0 contributing `w2`, `pluginB` exits 1
printing `boom`) is checked in the witness. -/
theorem runPlugins_failure_all_or_nothing (env : PluginEnv)
    (pluginList : String) (r : Report)
    (hfail : msgsFailures (runMsgs env pluginList r) ≠ []) :
    runPlugins env pluginList r =
      Except.error (errHeader ++ joinSep "\n"
        (msgsFailures (runMsgs env pluginList r))) ∧
    ∀ rep : Report, runPlugins env pluginList r ≠ Except.ok rep := by
  have h := runPlugins_eq env pluginList r
  rw [if_neg hfail] at h
  refine ⟨h, ?_⟩
  intro rep hok
  rw [h] at hok
  cases hok

/-- Witness for C1 at the spec example: no report is returned, the error
text contains `pluginB` and `boom`, and `w2`'s message appears nowhere in
the outcome. -/
theorem runPlugins_failure_all_or_nothing_witness :
    msgsFailures (runMsgs exEnv "pluginA,pluginB" exReport) ≠ [] ∧
    runPlugins exEnv "pluginA,pluginB" exReport =
      Except.error exCombinedErr ∧
    strContains exCombinedErr "pluginB" ∧
    strContains exCombinedErr "boom" ∧
    ¬ strContains exCombinedErr "w2-plugin-warning" ∧
    ∀ rep : Report,
      runPlugins exEnv "pluginA,pluginB" exReport ≠ Except.ok rep := by
  have h := runPlugins_failure_all_or_nothing exEnv "pluginA,pluginB"
    exReport (by decide)
  exact ⟨by decide, by rw [h.1]; decide, by decide, by decide, by decide, h.2⟩

/-- C2: resolution failures and output-decode failures are absorbed
locally — an unresolvable plugin contributes no message and spawns no
process; a plugin whose output fails to decode contributes no message; a
plugin contributing nothing never affects the message stream of the other
plugins; and when every configured name fails to resolve the call
succeeds and returns the report unchanged. -/
theorem resolution_and_decode_failures_absorbed :
    (∀ (env : PluginEnv) (stdin rawName e : String),
       env.lookPath (goTrim rawName) = Except.error e →
       pluginRun env stdin rawName = ([], [])) ∧
    (∀ (env : PluginEnv) (stdin rawName path output : String),
       env.lookPath (goTrim rawName) = Except.ok path →
       env.run path [] stdin = Except.ok output →
       env.decode output = none →
       pluginBody env stdin rawName = []) ∧
    (∀ (env : PluginEnv) (stdin n : String) (l1 l2 : List String),
       pluginBody env stdin n = [] →
       ((l1 ++ n :: l2).map (pluginBody env stdin)).flatten =
         ((l1 ++ l2).map (pluginBody env stdin)).flatten) ∧
    (∀ (env : PluginEnv) (pluginList : String) (r : Report),
       (∀ n ∈ goSplit ',' pluginList, ∃ e,
          env.lookPath (goTrim n) = Except.error e) →
       runPlugins env pluginList r = Except.ok r) := by
  refine ⟨?_, ?_, ?_, ?_⟩
  · intro env stdin rawName e h
    exact pluginRun_lookup_error env stdin rawName e h
  · intro env stdin rawName path output h1 h2 h3
    unfold pluginBody
    rw [pluginRun_decode_none env stdin rawName path output h1 h2 h3]
  · intro env stdin n l1 l2 h
    simp [List.map_append, List.flatten_append, h]
  · intro env pluginList r hall
    have hmsgs : runMsgs env pluginList r = [] := by
      unfold runMsgs
      apply List.flatten_eq_nil_iff.mpr
      intro ms hms
      rw [List.mem_map] at hms
      obtain ⟨n, hn, rfl⟩ := hms
      obtain ⟨e, he⟩ := hall n hn
      unfold pluginBody
      rw [pluginRun_lookup_error env (payloadBytes r) n e he]
    have h := runPlugins_eq env pluginList r
    rw [hmsgs] at h
    simpa [msgsFailures, msgsWarnings] using h

/-- Witness for C2: with two unresolvable names the call succeeds and the
report comes back unchanged. -/
theorem resolution_and_decode_failures_absorbed_witness :
    (∀ n ∈ goSplit ',' "ghostA,ghostB", ∃ e,
        envNone.lookPath (goTrim n) = Except.error e) ∧
    runPlugins envNone "ghostA,ghostB" exReport = Except.ok exReport := by
  have hall : ∀ n ∈ goSplit ',' "ghostA,ghostB", ∃ e,
      envNone.lookPath (goTrim n) = Except.error e := by
    intro n _
    exact ⟨"executable file not found in PATH", rfl⟩
  exact ⟨hall, resolution_and_decode_failures_absorbed.2.2.2 envNone
    "ghostA,ghostB" exReport hall⟩

/-- C3: a plugin whose process fails forwards to the collector one
failure record wrapping the trimmed name, resolved path, underlying OS
error and raw captured output; the call then fails with a combined error
whose text contains that plugin's name and resolved path, and no report
is returned even if other plugins succeeded with warnings. -/
theorem process_failure_record_and_combined_error (env : PluginEnv)
    (pluginList : String) (r : Report) (rawName path errMsg output : String)
    (hmem : rawName ∈ goSplit ',' pluginList)
    (h1 : env.lookPath (goTrim rawName) = Except.ok path)
    (h2 : env.run path [] (payloadBytes r) = Except.error (errMsg, output)) :
    Msg.failure (wrapPluginErr (goTrim rawName) path errMsg output) ∈
      runMsgs env pluginList r ∧
    ∃ E, runPlugins env pluginList r = Except.error E ∧
      strContains E (goTrim rawName) ∧ strContains E path ∧
      ∀ rep : Report, runPlugins env pluginList r ≠ Except.ok rep := by
  have hbody : pluginBody env (payloadBytes r) rawName =
      [Msg.failure (wrapPluginErr (goTrim rawName) path errMsg output)] := by
    unfold pluginBody
    rw [pluginRun_proc_error env (payloadBytes r) rawName path errMsg output
      h1 h2]
  have hmsg : Msg.failure (wrapPluginErr (goTrim rawName) path errMsg output) ∈
      runMsgs env pluginList r := by
    apply mem_runMsgs hmem
    rw [hbody]
    simp
  have hwfail : wrapPluginErr (goTrim rawName) path errMsg output ∈
      msgsFailures (runMsgs env pluginList r) :=
    failure_mem_msgsFailures hmsg
  have hne : msgsFailures (runMsgs env pluginList r) ≠ [] :=
    List.ne_nil_of_mem hwfail
  have heq := runPlugins_eq env pluginList r
  rw [if_neg hne] at heq
  have hinf : (wrapPluginErr (goTrim rawName) path errMsg output).data <:+:
      (joinSep "\n" (msgsFailures (runMsgs env pluginList r))).data :=
    mem_joinSep_substr _ _ _ hwfail
  refine ⟨hmsg, errHeader ++ joinSep "\n" (msgsFailures (runMsgs env pluginList r)),
    heq, ?_, ?_, ?_⟩
  · show strContains _ _
    unfold strContains
    rw [string_data_append]
    exact infix_append_left _
      (((wrap_contains (goTrim rawName) path errMsg output).1).trans hinf)
  · show strContains _ _
    unfold strContains
    rw [string_data_append]
    exact infix_append_left _
      (((wrap_contains (goTrim rawName) path errMsg output).2).trans hinf)
  · intro rep hok
    rw [heq] at hok
    cases hok

/-- Witness for C3: in the spec example exactly `pluginB` exits non-zero
while `pluginA` succeeds with warnings, and the combined error carries
`pluginB`'s name and resolved path with no report returned. -/
theorem process_failure_record_and_combined_error_witness :
    "pluginB" ∈ goSplit ',' "pluginA,pluginB" ∧
    exEnv.lookPath (goTrim "pluginB") = Except.ok "/bin/pluginB" ∧
    exEnv.run "/bin/pluginB" [] (payloadBytes exReport) =
      Except.error ("exit status 1", "boom") ∧
    Msg.warnings [w2] ∈ runMsgs exEnv "pluginA,pluginB" exReport ∧
    Msg.failure (wrapPluginErr (goTrim "pluginB") "/bin/pluginB"
      "exit status 1" "boom") ∈ runMsgs exEnv "pluginA,pluginB" exReport ∧
    ∃ E, runPlugins exEnv "pluginA,pluginB" exReport = Except.error E ∧
      strContains E (goTrim "pluginB") ∧ strContains E "/bin/pluginB" ∧
      ∀ rep : Report,
        runPlugins exEnv "pluginA,pluginB" exReport ≠ Except.ok rep := by
  have h := process_failure_record_and_combined_error exEnv "pluginA,pluginB"
    exReport "pluginB" "/bin/pluginB" "exit status 1" "boom"
    (by decide) (by decide) (by decide)
  exact ⟨by decide, by decide, by decide, by decide, h.1, h.2⟩

/-- Counterexample to C4 as stated: the code tests the decoded
`PluginWarnings` against Go `nil`, not against emptiness, so a plugin
whose well-formed output carries an empty-but-present batch still
forwards a warnings message to the collector although `PluginWarnings`
is empty — refuting the claim's "a batched message is forwarded if and
only if `PluginWarnings` is non-empty" at this input. -/
theorem pluginWarnings_nil_check_counterexample :
    cEnvC4.decode "outC4" = some dEmptyC4 ∧
    dEmptyC4.pluginWarnings = some [] ∧
    pluginBody cEnvC4 "anyIn" "pluginD" = [Msg.warnings []] ∧
    ¬ ((∃ ws, Msg.warnings ws ∈ pluginBody cEnvC4 "anyIn" "pluginD") ↔
        dEmptyC4.pluginWarnings.getD [] ≠ []) := by
  refine ⟨by decide, by decide, by decide, ?_⟩
  intro hiff
  exact absurd (hiff.mp ⟨[], by decide⟩) (by decide)

/-- C4 (amended): for a plugin whose output parses successfully, a
warnings message is forwarded if and only if the decoded `PluginWarnings`
field is present (Go: non-nil) — the whole batch as one single message,
an empty-but-present batch included — and a plugin-reported-error failure
record tagged with the trimmed name and resolved path is forwarded if and
only if `PluginErrorMessage` is non-empty; a payload carrying both yields
both messages, and the forwarded warnings are exactly what the collector
appends to the report. -/
theorem pluginWarnings_forwarded_iff_present (env : PluginEnv)
    (stdin rawName path output : String) (d : Data)
    (h1 : env.lookPath (goTrim rawName) = Except.ok path)
    (h2 : env.run path [] stdin = Except.ok output)
    (h3 : env.decode output = some d) :
    (∀ ws, Msg.warnings ws ∈ pluginBody env stdin rawName ↔
      d.pluginWarnings = some ws) ∧
    (∀ f, Msg.failure f ∈ pluginBody env stdin rawName ↔
      (d.pluginErrorMessage ≠ "" ∧
       f = wrapPluginErr (goTrim rawName) path d.pluginErrorMessage output)) ∧
    msgsWarnings (pluginBody env stdin rawName) = d.pluginWarnings.getD [] ∧
    (∀ r : Report,
      ((pluginBody env stdin rawName).foldl applyMsg (r, [])).1.warnings =
        r.warnings ++ d.pluginWarnings.getD []) := by
  have hb : pluginBody env stdin rawName =
      (match d.pluginWarnings with
        | some ws => [Msg.warnings ws]
        | none => []) ++
      (if d.pluginErrorMessage ≠ "" then
        [Msg.failure (wrapPluginErr (goTrim rawName) path
          d.pluginErrorMessage output)]
      else []) := by
    unfold pluginBody
    rw [pluginRun_decode_some env stdin rawName path output d h1 h2 h3]
  refine ⟨?_, ?_, ?_, ?_⟩
  · intro ws
    rw [hb]
    cases hw : d.pluginWarnings with
    | none =>
      by_cases he : d.pluginErrorMessage = "" <;> simp [he]
    | some ws0 =>
      by_cases he : d.pluginErrorMessage = "" <;> simp [he, eq_comm]
  · intro f
    rw [hb]
    cases hw : d.pluginWarnings with
    | none =>
      by_cases he : d.pluginErrorMessage = "" <;> simp [he]
    | some ws0 =>
      by_cases he : d.pluginErrorMessage = "" <;> simp [he]
  · rw [hb]
    cases hw : d.pluginWarnings with
    | none =>
      by_cases he : d.pluginErrorMessage = "" <;>
        simp [he, msgsWarnings, msgsWarnings_append]
    | some ws0 =>
      by_cases he : d.pluginErrorMessage = "" <;>
        simp [he, msgsWarnings, msgsWarnings_append]
  · intro r
    rw [hb, collect_spec]
    cases hw : d.pluginWarnings with
    | none =>
      by_cases he : d.pluginErrorMessage = "" <;>
        simp [he, msgsWarnings, msgsWarnings_append]
    | some ws0 =>
      by_cases he : d.pluginErrorMessage = "" <;>
        simp [he, msgsWarnings, msgsWarnings_append]

/-- Witness for the amended C4: a payload carrying both a warnings batch
and an error message yields both messages. -/
theorem pluginWarnings_forwarded_iff_present_witness :
    envBoth.lookPath (goTrim "pluginC") = Except.ok "/bin/pluginC" ∧
    envBoth.run "/bin/pluginC" [] "payload" = Except.ok "outC" ∧
    envBoth.decode "outC" = some dBoth ∧
    Msg.warnings [w2] ∈ pluginBody envBoth "payload" "pluginC" ∧
    Msg.failure (wrapPluginErr (goTrim "pluginC") "/bin/pluginC"
      "plugin says no" "outC") ∈ pluginBody envBoth "payload" "pluginC" ∧
    msgsWarnings (pluginBody envBoth "payload" "pluginC") = [w2] := by
  have h := pluginWarnings_forwarded_iff_present envBoth "payload" "pluginC"
    "/bin/pluginC" "outC" dBoth (by decide) (by decide) (by decide)
  refine ⟨by decide, by decide, by decide, ?_, ?_, ?_⟩
  · exact (h.1 [w2]).mpr (by decide)
  · exact (h.2.1 _).mpr ⟨by decide, rfl⟩
  · rw [h.2.2.1]
    decide

/-- C5: when no failure record is accumulated, `runPlugins` returns the
report; the final warning sequence is the original warnings followed by
every plugin-contributed warning, so its length is the original count
plus the number of contributed warnings, and as a multiset it is the
union of the original and contributed warnings. -/
theorem runPlugins_success_merges_all_warnings (env : PluginEnv)
    (pluginList : String) (r : Report)
    (hok : msgsFailures (runMsgs env pluginList r) = []) :
    runPlugins env pluginList r =
      Except.ok { r with
        warnings := r.warnings ++ msgsWarnings (runMsgs env pluginList r) } ∧
    ∀ rep : Report, runPlugins env pluginList r = Except.ok rep →
      rep.warnings.length =
        r.warnings.length + (msgsWarnings (runMsgs env pluginList r)).length ∧
      rep.warnings.Perm
        (r.warnings ++ msgsWarnings (runMsgs env pluginList r)) := by
  have h := runPlugins_eq env pluginList r
  rw [if_pos hok] at h
  refine ⟨h, ?_⟩
  intro rep hrep
  rw [h] at hrep
  injection hrep with h2
  subst h2
  constructor
  · simp
  · exact List.Perm.refl _

/-- Witness for C5: two plugins both succeed contributing `w2` and `w3`;
the returned report keeps `w1` and appends both, count 1 + 2. -/
theorem runPlugins_success_merges_all_warnings_witness :
    msgsFailures (runMsgs envTwo "alpha,beta" exReport) = [] ∧
    runPlugins envTwo "alpha,beta" exReport =
      Except.ok { current := exReport.current, updated := exReport.updated,
                  warnings := [w1, w2, w3] } ∧
    msgsWarnings (runMsgs envTwo "alpha,beta" exReport) = [w2, w3] := by
  have h := runPlugins_success_merges_all_warnings envTwo "alpha,beta"
    exReport (by decide)
  exact ⟨by decide, by rw [h.1]; decide, by decide⟩

/-- C6: the serialized payload is built exactly once, from the report as
it was when the call started, and every spawned plugin process reads that
same byte sequence on its own standard input, so all invocations receive
byte-identical input regardless of dispatch or completion order (in the
pure embedding the payload value cannot be mutated after construction,
and each invocation record carries its own copy of it). -/
theorem payload_shared_and_identical (env : PluginEnv) (pluginList : String)
    (r : Report) :
    (∀ inv ∈ runInvocations env pluginList r, inv.stdin = payloadBytes r) ∧
    ∀ inv1 inv2, inv1 ∈ runInvocations env pluginList r →
      inv2 ∈ runInvocations env pluginList r → inv1.stdin = inv2.stdin := by
  refine ⟨fun inv hinv => (mem_runInvocations hinv).2, ?_⟩
  intro inv1 inv2 hm1 hm2
  rw [(mem_runInvocations hm1).2, (mem_runInvocations hm2).2]

/-- Witness for C6: a concrete spawned invocation reads exactly the
serialized payload of the input report. -/
theorem payload_shared_and_identical_witness :
    Invocation.mk "/bin/alpha" [] (payloadBytes exReport) ∈
      runInvocations envTwo "alpha,beta" exReport ∧
    (Invocation.mk "/bin/alpha" [] (payloadBytes exReport)).stdin =
      payloadBytes exReport := by
  have hmem : Invocation.mk "/bin/alpha" [] (payloadBytes exReport) ∈
      runInvocations envTwo "alpha,beta" exReport := by decide
  exact ⟨hmem,
    (payload_shared_and_identical envTwo "alpha,beta" exReport).1 _ hmem⟩

/-- C7: when failure records were accumulated, the combined error is the
fixed header followed by one formatted record per failure — trimmed
plugin name, resolved path, underlying cause, and the raw captured output
with every occurrence of the internal record-separator token rewritten to
the human-display token — joined by newlines; the raw token never
survives in a rewritten output. -/
theorem combined_error_format (env : PluginEnv) (pluginList : String)
    (r : Report) (hfail : msgsFailures (runMsgs env pluginList r) ≠ []) :
    runPlugins env pluginList r =
      Except.error (errHeader ++ joinSep "\n"
        ((runFailData env pluginList r).map wrapQuad)) ∧
    ∀ q ∈ runFailData env pluginList r,
      wrapQuad q = q.1 ++ " (" ++ q.2.1 ++ "): " ++ q.2.2.1 ++ "\n" ++
        replaceAllStr q.2.2.2 ProtoSep FileSep ∧
      ¬ strContains (replaceAllStr q.2.2.2 ProtoSep FileSep) ProtoSep := by
  have h := runPlugins_eq env pluginList r
  rw [if_neg hfail] at h
  rw [msgsFailures_runMsgs] at h
  refine ⟨h, ?_⟩
  intro q _
  exact ⟨rfl, protoSep_not_in_rewritten _⟩

/-- Witness for C7: a failing plugin prints output containing the
record-separator token; the combined error shows the rewritten output and
the raw token does not appear in the rewritten part. -/
theorem combined_error_format_witness :
    msgsFailures (runMsgs envSep "sepp" exReport) ≠ [] ∧
    runPlugins envSep "sepp" exReport =
      Except.error
        "[protolock:plugin] accumulated plugin errors:\nsepp (/bin/sepp): exit status 2\nx/y" ∧
    runFailData envSep "sepp" exReport =
      [("sepp", "/bin/sepp", "exit status 2", "x:-:y")] ∧
    replaceAllStr "x:-:y" ProtoSep FileSep = "x/y" ∧
    ¬ strContains (replaceAllStr "x:-:y" ProtoSep FileSep) ProtoSep := by
  have h := combined_error_format envSep "sepp" exReport (by decide)
  refine ⟨by decide, by rw [h.1]; decide, by decide, by decide, ?_⟩
  exact (h.2 ("sepp", "/bin/sepp", "exit status 2", "x:-:y") (by decide)).2

/-- C8: the collector never touches `Current` or `Updated` and only ever
extends `Warnings` by appending, so after any message stream the original
warnings are preserved, in order, as a prefix; and a successful call
returns exactly the threaded report — the input report with the collected
warnings appended in place. -/
theorem report_frame_conditions (env : PluginEnv) (pluginList : String)
    (r : Report) :
    (∀ msgs : List Msg,
      (msgs.foldl applyMsg (r, [])).1.current = r.current ∧
      (msgs.foldl applyMsg (r, [])).1.updated = r.updated ∧
      r.warnings <+: (msgs.foldl applyMsg (r, [])).1.warnings) ∧
    ∀ rep : Report, runPlugins env pluginList r = Except.ok rep →
      rep = { r with
        warnings := r.warnings ++ msgsWarnings (runMsgs env pluginList r) } := by
  constructor
  · intro msgs
    rw [collect_spec]
    exact ⟨rfl, rfl, List.prefix_append _ _⟩
  · intro rep hrep
    have h := runPlugins_eq env pluginList r
    by_cases hf : msgsFailures (runMsgs env pluginList r) = []
    · rw [if_pos hf] at h
      rw [h] at hrep
      injection hrep with h2
      exact h2.symm
    · rw [if_neg hf] at h
      rw [h] at hrep
      cases hrep

/-- Witness for C8: the successful two-plugin run returns the input
report with only `Warnings` extended. -/
theorem report_frame_conditions_witness :
    runPlugins envTwo "alpha,beta" exReport =
      Except.ok { current := exReport.current, updated := exReport.updated,
                  warnings := [w1, w2, w3] } ∧
    ({ current := exReport.current, updated := exReport.updated,
       warnings := [w1, w2, w3] } : Report) =
      { exReport with warnings := exReport.warnings ++
          msgsWarnings (runMsgs envTwo "alpha,beta" exReport) } := by
  have hok : runPlugins envTwo "alpha,beta" exReport =
      Except.ok { current := exReport.current, updated := exReport.updated,
                  warnings := [w1, w2, w3] } := by decide
  exact ⟨hok, (report_frame_conditions envTwo "alpha,beta" exReport).2 _ hok⟩

/-- C10: every spawned plugin process is constructed from the resolved
path alone — its argument vector is empty — and the serialized payload
on standard input is the only input it receives. -/
theorem plugin_invoked_with_no_args (env : PluginEnv) (pluginList : String)
    (r : Report) :
    ∀ inv ∈ runInvocations env pluginList r,
      inv.args = [] ∧ inv.stdin = payloadBytes r := by
  intro inv hinv
  exact mem_runInvocations hinv

/-- Witness for C10: a concrete spawned invocation has an empty argument
vector and the payload on stdin. -/
theorem plugin_invoked_with_no_args_witness :
    Invocation.mk "/bin/beta" [] (payloadBytes exReport) ∈
      runInvocations envTwo "alpha,beta" exReport ∧
    (Invocation.mk "/bin/beta" [] (payloadBytes exReport)).args = [] ∧
    (Invocation.mk "/bin/beta" [] (payloadBytes exReport)).stdin =
      payloadBytes exReport := by
  have hmem : Invocation.mk "/bin/beta" [] (payloadBytes exReport) ∈
      runInvocations envTwo "alpha,beta" exReport := by decide
  exact ⟨hmem, plugin_invoked_with_no_args envTwo "alpha,beta" exReport _ hmem⟩

/-- C9: message delivery is a rendezvous, and a task's deferred `Done`
can only run after all its sends have been received, while the stop
rendezvous requires the collector to sit at its `select` again — so in
every schedule, once the aggregator observes the barrier and stops the
collector, the applied messages are exactly (a permutation of) all
messages produced by the plugin goroutines, and only the collector's
apply step ever changes the applied-message state. -/
theorem collector_barrier_and_sole_writer :
    (∀ (env : PluginEnv) (payload : String) (names : List String) (s : Sys),
       SysReach (names.map (pluginBody env payload)) s → s.finished = true →
       s.applied.Perm ((names.map (pluginBody env payload)).flatten)) ∧
    ∀ s s2 : Sys, SysStep s s2 → s2.applied ≠ s.applied →
      ∃ m, s.inbox = some m ∧ s2.applied = s.applied ++ [m] ∧
        s2.tasks = s.tasks ∧ s2.finished = s.finished := by
  constructor
  · intro env payload names s hreach hfin
    exact (sysInv_reach hreach).2.2 hfin
  · intro s s2 hstep hne
    cases hstep with
    | send i m rest t ht hp hidle hfin => exact absurd rfl hne
    | record m hm hfin => exact ⟨m, hm, rfl, rfl, rfl⟩
    | complete i t ht hp hd hfin => exact absurd rfl hne
    | finalize hall hidle hfin => exact absurd rfl hne

/-- Witness for C9: a concrete schedule (send, apply, `Done`, finalize)
for one plugin goroutine reaches a finished state whose applied messages
are exactly the goroutine's messages. -/
theorem collector_barrier_and_sole_writer_witness :
    SysReach (["p"].map (pluginBody envW "payload"))
      { tasks := [{ pending := [], done := true }], inbox := none,
        applied := [Msg.warnings [w2]], finished := true } ∧
    ({ tasks := [{ pending := [], done := true }], inbox := none,
       applied := [Msg.warnings [w2]], finished := true } : Sys).applied.Perm
      ((["p"].map (pluginBody envW "payload")).flatten) := by
  have st1 : SysStep
      (Sys.init (["p"].map (pluginBody envW "payload")))
      { tasks := [{ pending := [], done := false }],
        inbox := some (Msg.warnings [w2]), applied := [], finished := false } :=
    SysStep.send 0 (Msg.warnings [w2]) []
      { pending := [Msg.warnings [w2]], done := false }
      (by decide) (by decide) (by decide) (by decide)
  have st2 : SysStep
      { tasks := [{ pending := [], done := false }],
        inbox := some (Msg.warnings [w2]), applied := [], finished := false }
      { tasks := [{ pending := [], done := false }], inbox := none,
        applied := [Msg.warnings [w2]], finished := false } :=
    SysStep.record (Msg.warnings [w2]) (by decide) (by decide)
  have st3 : SysStep
      { tasks := [{ pending := [], done := false }], inbox := none,
        applied := [Msg.warnings [w2]], finished := false }
      { tasks := [{ pending := [], done := true }], inbox := none,
        applied := [Msg.warnings [w2]], finished := false } :=
    SysStep.complete 0 { pending := [], done := false }
      (by decide) (by decide) (by decide) (by decide)
  have st4 : SysStep
      { tasks := [{ pending := [], done := true }], inbox := none,
        applied := [Msg.warnings [w2]], finished := false }
      { tasks := [{ pending := [], done := true }], inbox := none,
        applied := [Msg.warnings [w2]], finished := true } :=
    SysStep.finalize (by decide) (by decide) (by decide)
  have hreach : SysReach (["p"].map (pluginBody envW "payload"))
      { tasks := [{ pending := [], done := true }], inbox := none,
        applied := [Msg.warnings [w2]], finished := true } :=
    ((((Relation.ReflTransGen.refl).tail st1).tail st2).tail st3).tail st4
  exact ⟨hreach,
    collector_barrier_and_sole_writer.1 envW "payload" ["p"] _ hreach rfl⟩

end ProtolockPlugins
